import Mathlib

/-!
A shallow embedding of the WoodBowl PWA's image-ingestion pipeline
(validator, resizer dimension arithmetic, upload-set rollback, batch
processing, finish-list editing, display-order writes), with theorems
checking the specification's claims about it.
-/

namespace WoodBowl

/-! ## Validator (src/lib/image-processing `validateImageFile`) -/

/-- The metadata of a candidate file, as the validator sees it:
declared byte size and declared MIME type, plus the file name used in
diagnostics. -/
structure FileMeta where
  name : String
  size : Nat
  mimeType : String
deriving DecidableEq, Repr

/-- Result shape of `validateImageFile`: `{ valid: boolean; error?: string }`. -/
structure ValidationResult where
  valid : Bool
  error : Option String
deriving DecidableEq, Repr

/-- The fixed allow-list `supportedTypes` from `validateImageFile`. -/
def supportedTypes : List String :=
  ["image/jpeg", "image/jpg", "image/png", "image/webp", "image/gif"]

/-- JavaScript's `String.prototype.startsWith`, embedded over the character
lists of the two strings so that it evaluates inside the kernel. -/
def strStartsWith (s p : String) : Bool :=
  p.data.isPrefixOf s.data

/-- `validateImageFile` from src/lib/image-processing: rejects non-`image/*`
MIME types, sizes above 10 MB, and types outside the allow-list, in that
order, each with its own error string. -/
def validateImageFile (file : FileMeta) : ValidationResult :=
  if ¬ strStartsWith file.mimeType "image/" then
    { valid := false, error := some "File must be an image" }
  else if file.size > 10 * 1024 * 1024 then
    { valid := false, error := some "Image must be smaller than 10MB" }
  else if ¬ (supportedTypes.contains file.mimeType) then
    { valid := false, error := some "Supported formats: JPEG, PNG, WebP, GIF" }
  else
    { valid := true, error := none }

example : (validateImageFile ⟨"a.jpg", 5, "image/jpeg"⟩).valid = true := by decide

example : (validateImageFile ⟨"a.jpg", 11 * 1024 * 1024, "image/jpeg"⟩).valid = false := by
  decide

example : (validateImageFile ⟨"a.tif", 5, "image/tiff"⟩).valid = false := by decide

/-! ## Uploader (src/lib/storage: `uploadImageSet`, `cleanupPartialUpload`)

The backend storage client is abstracted by an oracle
`uploadRes : String → Option String` giving, for a storage path, the public
URL on success or `none` on failure; the model records the storage calls
(upload attempts and removal calls) the code issues. -/

/-- The four variant sizes of one processed image set. -/
inductive Size where
  | thumbnail
  | medium
  | full
  | original
deriving DecidableEq, Repr

/-- The iteration order of the upload loop:
`const sizes = ["thumbnail", "medium", "full", "original"]`. -/
def sizes : List Size := [.thumbnail, .medium, .full, .original]

/-- The path segment used for a variant in the storage path. -/
def Size.segment : Size → String
  | .thumbnail => "thumbnail"
  | .medium => "medium"
  | .full => "full"
  | .original => "original"

/-- One uploaded variant: the public URL and the storage path,
as returned by `uploadSingleImage`. -/
structure UploadedImage where
  url : String
  path : String
deriving DecidableEq, Repr

/-- The in-progress `results` object of `uploadImageSet`
(`Partial<UploadedImageSet>`): each variant slot is filled as its upload
succeeds. -/
structure ResultSet where
  thumbnail : Option UploadedImage
  medium : Option UploadedImage
  full : Option UploadedImage
  original : Option UploadedImage
deriving DecidableEq, Repr

/-- The empty `results` object at the start of the loop. -/
def ResultSet.empty : ResultSet := ⟨none, none, none, none⟩

/-- `results[size] = uploadResult`. -/
def ResultSet.set (r : ResultSet) (s : Size) (v : UploadedImage) : ResultSet :=
  match s with
  | .thumbnail => { r with thumbnail := some v }
  | .medium => { r with medium := some v }
  | .full => { r with full := some v }
  | .original => { r with original := some v }

/-- Read one variant slot of the `results` object. -/
def ResultSet.get (r : ResultSet) (s : Size) : Option UploadedImage :=
  match s with
  | .thumbnail => r.thumbnail
  | .medium => r.medium
  | .full => r.full
  | .original => r.original

/-- `const filePath = \x7bbowls/${bowlId}/${size}/${baseFileName}.jpg\x7d` -/
def storagePath (bowlId baseFileName : String) (s : Size) : String :=
  "bowls/" ++ bowlId ++ "/" ++ s.segment ++ "/" ++ baseFileName ++ ".jpg"

/-- `cleanupPartialUpload`: collect the `path` of every non-null entry of
the partial results object (fields are iterated in insertion order, which
is the upload order thumbnail, medium, full, original). -/
def cleanupPaths (r : ResultSet) : List String :=
  ([r.thumbnail, r.medium, r.full, r.original]).filterMap (Option.map (·.path))

/-- The storage calls observed during one run: the paths of attempted
uploads, and each removal call with the list of paths it was given. -/
structure StorageEvents where
  uploads : List String
  removes : List (List String)
deriving DecidableEq, Repr

/-- The `for (const size of sizes)` loop body of `uploadImageSet`: upload
the variant at its path; on success record it in `results`; on failure run
`cleanupPartialUpload results` (a single removal call, issued only when
there is at least one collected path) and abort with failure. -/
def uploadLoop (uploadRes : String → Option String) (bowlId baseFileName : String) :
    List Size → ResultSet → Option ResultSet × StorageEvents
  | [], results => (some results, ⟨[], []⟩)
  | s :: rest, results =>
    let fp := storagePath bowlId baseFileName s
    match uploadRes fp with
    | some u =>
      let next := uploadLoop uploadRes bowlId baseFileName rest (results.set s ⟨u, fp⟩)
      (next.1, ⟨fp :: next.2.uploads, next.2.removes⟩)
    | none =>
      let pathsToDelete := cleanupPaths results
      (none, ⟨[fp], if pathsToDelete.length > 0 then [pathsToDelete] else []⟩)

/-- `uploadImageSet` from src/lib/storage: returns `null` without any
storage call when the backend is unconfigured; otherwise uploads the four
variants in order, returning the completed set or `null` after cleaning up
the partial set. -/
def uploadImageSet (configured : Bool) (uploadRes : String → Option String)
    (bowlId baseFileName : String) : Option ResultSet × StorageEvents :=
  if ¬ configured then (none, ⟨[], []⟩)
  else uploadLoop uploadRes bowlId baseFileName sizes ResultSet.empty

/-- C1: if the upload of the variant at position `k` in the fixed order
fails after the first `k` variants succeeded, `uploadImageSet` reports
failure (`none`), and the removal calls it issued contain exactly the
storage paths of the `k` previously-succeeded variants — in particular the
number of cleanup paths equals the number of prior successes. -/
theorem uploadImageSet_rollback (uploadRes : String → Option String)
    (bowlId baseFileName : String) (k : Nat) (hk : k < 4)
    (hprev : ∀ s ∈ sizes.take k, (uploadRes (storagePath bowlId baseFileName s)).isSome = true)
    (hfail : uploadRes (storagePath bowlId baseFileName (sizes.getD k .thumbnail)) = none) :
    (uploadImageSet true uploadRes bowlId baseFileName).1 = none ∧
    (uploadImageSet true uploadRes bowlId baseFileName).2.removes.foldr (· ++ ·) [] =
      (sizes.take k).map (storagePath bowlId baseFileName) ∧
    ((uploadImageSet true uploadRes bowlId baseFileName).2.removes.foldr (· ++ ·) []).length
      = k := by
  interval_cases k
  · have hf : uploadRes (storagePath bowlId baseFileName .thumbnail) = none := hfail
    simp [uploadImageSet, uploadLoop, hf, cleanupPaths, ResultSet.empty, sizes]
  · obtain ⟨u0, h0⟩ :=
      Option.isSome_iff_exists.mp (hprev .thumbnail (by decide))
    have hf : uploadRes (storagePath bowlId baseFileName .medium) = none := hfail
    simp [uploadImageSet, uploadLoop, h0, hf, cleanupPaths, ResultSet.empty,
      ResultSet.set, sizes]
  · obtain ⟨u0, h0⟩ :=
      Option.isSome_iff_exists.mp (hprev .thumbnail (by decide))
    obtain ⟨u1, h1⟩ :=
      Option.isSome_iff_exists.mp (hprev .medium (by decide))
    have hf : uploadRes (storagePath bowlId baseFileName .full) = none := hfail
    simp [uploadImageSet, uploadLoop, h0, h1, hf, cleanupPaths, ResultSet.empty,
      ResultSet.set, sizes]
  · obtain ⟨u0, h0⟩ :=
      Option.isSome_iff_exists.mp (hprev .thumbnail (by decide))
    obtain ⟨u1, h1⟩ :=
      Option.isSome_iff_exists.mp (hprev .medium (by decide))
    obtain ⟨u2, h2⟩ :=
      Option.isSome_iff_exists.mp (hprev .full (by decide))
    have hf : uploadRes (storagePath bowlId baseFileName .original) = none := hfail
    simp [uploadImageSet, uploadLoop, h0, h1, h2, hf, cleanupPaths, ResultSet.empty,
      ResultSet.set, sizes]

/-- Oracle for the C1 witness: the `full` variant's upload fails, the
others succeed. -/
def witnessUploadRes (p : String) : Option String :=
  if p = storagePath "b1" "123-abc" .full then none else some "https://x/u"

/-- Witness for C1 at a concrete input: with the third of the four
variants failing, the two prior successes are cleaned up. -/
theorem uploadImageSet_rollback_witness :
    (2 < 4 ∧
      (∀ s ∈ sizes.take 2,
        (witnessUploadRes (storagePath "b1" "123-abc" s)).isSome = true) ∧
      witnessUploadRes (storagePath "b1" "123-abc" (sizes.getD 2 .thumbnail)) = none) ∧
    ((uploadImageSet true witnessUploadRes "b1" "123-abc").2.removes.foldr (· ++ ·) []).length
      = 2 := by
  refine ⟨⟨by norm_num, by decide, by decide⟩, ?_⟩
  exact (uploadImageSet_rollback witnessUploadRes "b1" "123-abc" 2 (by norm_num)
    (by decide) (by decide)).2.2

/-- C9: `uploadImageSet` is total on its result type — when the backend is
unconfigured it returns `null` without attempting any storage operation,
and whenever it returns a non-null set every one of the four variant slots
is populated (never a partial set). -/
theorem uploadImageSet_total (configured : Bool) (uploadRes : String → Option String)
    (bowlId baseFileName : String) :
    (configured = false →
      uploadImageSet configured uploadRes bowlId baseFileName = (none, ⟨[], []⟩)) ∧
    (∀ r, (uploadImageSet configured uploadRes bowlId baseFileName).1 = some r →
      (r.get .thumbnail).isSome = true ∧ (r.get .medium).isSome = true ∧
      (r.get .full).isSome = true ∧ (r.get .original).isSome = true) := by
  constructor
  · intro h; subst h; simp [uploadImageSet]
  · intro r hr
    cases hc : configured with
    | false => subst hc; simp [uploadImageSet] at hr
    | true =>
      subst hc
      simp only [uploadImageSet, sizes] at hr
      rw [if_neg (by simp)] at hr
      cases h0 : uploadRes (storagePath bowlId baseFileName .thumbnail) with
      | none => simp [uploadLoop, h0] at hr
      | some u0 =>
        cases h1 : uploadRes (storagePath bowlId baseFileName .medium) with
        | none => simp [uploadLoop, h0, h1] at hr
        | some u1 =>
          cases h2 : uploadRes (storagePath bowlId baseFileName .full) with
          | none => simp [uploadLoop, h0, h1, h2] at hr
          | some u2 =>
            cases h3 : uploadRes (storagePath bowlId baseFileName .original) with
            | none => simp [uploadLoop, h0, h1, h2, h3] at hr
            | some u3 =>
              simp only [uploadLoop, h0, h1, h2, h3, Option.some.injEq] at hr
              subst hr
              simp [ResultSet.get, ResultSet.set, ResultSet.empty]

/-- Witness for C9 at a concrete input: an unconfigured backend yields
`null` with no storage calls, and an all-successful run yields a set with
all four slots populated. -/
theorem uploadImageSet_total_witness :
    uploadImageSet false (fun _ => some "u") "b" "f" = (none, ⟨[], []⟩) ∧
    ∀ r, (uploadImageSet true (fun _ => some "u") "b" "f").1 = some r →
      (r.get .thumbnail).isSome = true := by
  constructor
  · exact (uploadImageSet_total false (fun _ => some "u") "b" "f").1 rfl
  · intro r hr
    exact ((uploadImageSet_total true (fun _ => some "u") "b" "f").2 r hr).1

/-! ## Batch selection (src/components/enhanced-image-upload `handleFileSelect`)

The per-file loop validates each file and then runs the decode/resize
step (`getImageDimensions` + `processImage`), abstracted by an oracle
`resize : FileMeta → Option String` returning `none` on success or the
rejection message of the thrown error on failure. The model records which
files reached the processing step. -/

/-- Result of one run of the per-file loop of `handleFileSelect`:
the `newImages` accumulated, the `error` state after the loop, and the
files for which the decode/resize step was invoked. -/
structure SelectOutcome where
  newImages : List FileMeta
  error : Option String
  processed : List FileMeta
deriving DecidableEq, Repr

/-- The `for (let i = 0; ...)` loop of `handleFileSelect`: validate the
file (an invalid result throws its error message), then decode and resize
it; any failure is caught, recorded via `setError`, and `break`s the
loop; a processed file is pushed onto `newImages`. -/
def selectLoop (resize : FileMeta → Option String) : List FileMeta → SelectOutcome
  | [] => ⟨[], none, []⟩
  | f :: rest =>
    if (validateImageFile f).valid = false then
      ⟨[], some ("Error processing " ++ f.name ++ ": " ++
        ((validateImageFile f).error.getD "Unknown error")), []⟩
    else
      match resize f with
      | some msg => ⟨[], some ("Error processing " ++ f.name ++ ": " ++ msg), [f]⟩
      | none =>
        let o := selectLoop resize rest
        ⟨f :: o.newImages, o.error, f :: o.processed⟩

/-- The cap error set by `handleFileSelect` when the selection would
exceed `maxImages`. -/
def capError (maxImages canAdd : Nat) : String :=
  "Maximum " ++ toString maxImages ++ " images allowed. You can add " ++
    toString canAdd ++ " more."

/-- `handleFileSelect`: if the selection would raise the image count above
`maxImages`, record the cap error and return before processing anything;
otherwise run the per-file loop and append whatever it accumulated (the
images list is only changed when at least one file succeeded). -/
def handleFileSelect (images : List FileMeta) (maxImages : Nat)
    (resize : FileMeta → Option String) (files : List FileMeta) : SelectOutcome :=
  if images.length + files.length > maxImages then
    ⟨images, some (capError maxImages (maxImages - images.length)), []⟩
  else
    let o := selectLoop resize files
    ⟨if o.newImages.length > 0 then images ++ o.newImages else images, o.error, o.processed⟩

/-- Every file that reaches the decode/resize step of the loop passed
validation: a rejected file triggers no processing (and hence no network
activity) anywhere in the pipeline. -/
theorem selectLoop_processed_valid (resize : FileMeta → Option String) :
    ∀ files : List FileMeta, ∀ g ∈ (selectLoop resize files).processed,
      (validateImageFile g).valid = true := by
  intro files
  induction files with
  | nil => intro g hg; simp [selectLoop] at hg
  | cons f rest ih =>
    intro g hg
    by_cases hv : (validateImageFile f).valid = false
    · simp [selectLoop, hv] at hg
    · cases hres : resize f with
      | some msg =>
        simp [selectLoop, hv, hres] at hg
        subst hg
        simpa using hv
      | none =>
        simp [selectLoop, hv, hres] at hg
        rcases hg with rfl | hg
        · simpa using hv
        · exact ih g hg

/-- Every MIME type of the allow-list starts with the prefix checked by
the first guard of `validateImageFile`. -/
theorem supportedTypes_startsWith :
    ∀ t ∈ supportedTypes, strStartsWith t "image/" = true := by
  intro t ht
  simp only [supportedTypes, List.mem_cons, List.not_mem_nil, or_false] at ht
  rcases ht with rfl | rfl | rfl | rfl | rfl <;> decide

/-- C3: `validateImageFile` accepts a file iff its declared size is at
most 10 MB and its declared MIME type is in the fixed allow-list; every
rejection carries one of the three constraint-naming error strings; and a
rejected file never reaches the processing step of the selection loop, so
no network activity happens for it. -/
theorem validateImageFile_spec (f : FileMeta) :
    ((validateImageFile f).valid = true ↔
      f.size ≤ 10 * 1024 * 1024 ∧ f.mimeType ∈ supportedTypes) ∧
    ((validateImageFile f).valid = false →
      (validateImageFile f).error = some "File must be an image" ∨
      (validateImageFile f).error = some "Image must be smaller than 10MB" ∨
      (validateImageFile f).error = some "Supported formats: JPEG, PNG, WebP, GIF") ∧
    (∀ (resize : FileMeta → Option String) (files : List FileMeta),
      (validateImageFile f).valid = false →
      f ∉ (selectLoop resize files).processed) := by
  refine ⟨⟨?_, ?_⟩, ?_, ?_⟩
  · intro hv
    by_cases h1 : strStartsWith f.mimeType "image/" = true
    · by_cases h2 : f.size > 10 * 1024 * 1024
      · simp [validateImageFile, h1, h2] at hv
      · by_cases h3 : f.mimeType ∈ supportedTypes
        · exact ⟨by omega, h3⟩
        · simp [validateImageFile, h1, h2, h3] at hv
    · simp [validateImageFile, h1] at hv
  · rintro ⟨hs, hm⟩
    have h1 : strStartsWith f.mimeType "image/" = true := supportedTypes_startsWith _ hm
    have h2 : ¬ f.size > 10 * 1024 * 1024 := by omega
    simp [validateImageFile, h1, h2, hm]
  · intro hv
    by_cases h1 : strStartsWith f.mimeType "image/" = true
    · by_cases h2 : f.size > 10 * 1024 * 1024
      · right; left; simp [validateImageFile, h1, h2]
      · by_cases h3 : f.mimeType ∈ supportedTypes
        · simp [validateImageFile, h1, h2, h3] at hv
        · right; right; simp [validateImageFile, h1, h2, h3]
    · left; simp [validateImageFile, h1]
  · intro resize files hv hmem
    have h := selectLoop_processed_valid resize files f hmem
    rw [hv] at h
    exact absurd h (by decide)

/-- Witness for C3 at a concrete input: a 20 MB PNG is rejected with the
size-naming error and is absent from the processing calls of a concrete
selection run. -/
theorem validateImageFile_spec_witness :
    ((validateImageFile ⟨"big.png", 20 * 1024 * 1024, "image/png"⟩).valid = false ∧
      ((validateImageFile ⟨"big.png", 20 * 1024 * 1024, "image/png"⟩).error =
          some "File must be an image" ∨
        (validateImageFile ⟨"big.png", 20 * 1024 * 1024, "image/png"⟩).error =
          some "Image must be smaller than 10MB" ∨
        (validateImageFile ⟨"big.png", 20 * 1024 * 1024, "image/png"⟩).error =
          some "Supported formats: JPEG, PNG, WebP, GIF")) ∧
    FileMeta.mk "big.png" (20 * 1024 * 1024) "image/png" ∉
      (selectLoop (fun _ => none)
        [⟨"big.png", 20 * 1024 * 1024, "image/png"⟩]).processed := by
  refine ⟨⟨by decide, ?_⟩, ?_⟩
  · exact (validateImageFile_spec ⟨"big.png", 20 * 1024 * 1024, "image/png"⟩).2.1 (by decide)
  · exact (validateImageFile_spec ⟨"big.png", 20 * 1024 * 1024, "image/png"⟩).2.2
      (fun _ => none) [⟨"big.png", 20 * 1024 * 1024, "image/png"⟩] (by decide)

/-- C10: when a selection would raise the image count above `maxImages`,
`handleFileSelect` records the cap error and returns before touching any
file: the images list is unchanged and no file of the selection is
validated or processed. -/
theorem handleFileSelect_cap (images : List FileMeta) (maxImages : Nat)
    (resize : FileMeta → Option String) (files : List FileMeta)
    (h : images.length + files.length > maxImages) :
    handleFileSelect images maxImages resize files =
      ⟨images, some (capError maxImages (maxImages - images.length)), []⟩ := by
  simp [handleFileSelect, h]

/-- A file that fails validation (wrong MIME type), used as concrete
input in counterexamples and witnesses. -/
def badFile : FileMeta := ⟨"notes.txt", 5, "text/plain"⟩

/-- A file that passes validation, used as concrete input in
counterexamples and witnesses. -/
def goodFile : FileMeta := ⟨"bowl.jpg", 5, "image/jpeg"⟩

/-- Witness for C10 at a concrete input: with 10 images already present,
selecting one more leaves the images list unchanged with no file
processed. -/
theorem handleFileSelect_cap_witness :
    (List.replicate 10 goodFile).length + [goodFile].length > 10 ∧
    handleFileSelect (List.replicate 10 goodFile) 10 (fun _ => none) [goodFile] =
      ⟨List.replicate 10 goodFile, some (capError 10 (10 - 10)), []⟩ := by
  exact ⟨by decide,
    handleFileSelect_cap (List.replicate 10 goodFile) 10 (fun _ => none) [goodFile]
      (by decide)⟩

/-- Counterexample for C4: in a batch whose first file fails validation,
the second file — although it would pass validation and resize — is never
processed and never completes: the loop `break`s instead of continuing
with the remaining files. -/
theorem selectLoop_break_counterexample :
    (validateImageFile goodFile).valid = true ∧
    goodFile ∉ (selectLoop (fun _ => none) [badFile, goodFile]).processed ∧
    goodFile ∉ (selectLoop (fun _ => none) [badFile, goodFile]).newImages := by
  decide

/-- C4 as amended: when file `f` is the first failing file of a batch,
every file before it is processed and kept, the failure is recorded as a
diagnostic error string, and the loop breaks at `f`: no file after `f` is
processed in that selection. -/
theorem selectLoop_first_failure (resize : FileMeta → Option String)
    (pre : List FileMeta) (f : FileMeta) (post : List FileMeta)
    (hpre : ∀ g ∈ pre, (validateImageFile g).valid = true ∧ resize g = none)
    (hf : (validateImageFile f).valid = false ∨ resize f ≠ none) :
    (selectLoop resize (pre ++ f :: post)).newImages = pre ∧
    ((selectLoop resize (pre ++ f :: post)).error).isSome = true ∧
    ((selectLoop resize (pre ++ f :: post)).processed = pre ∨
      (selectLoop resize (pre ++ f :: post)).processed = pre ++ [f]) := by
  induction pre with
  | nil =>
    rcases hf with hf | hf
    · simp [selectLoop, hf]
    · by_cases hv : (validateImageFile f).valid = false
      · simp [selectLoop, hv]
      · cases hres : resize f with
        | none => exact absurd hres hf
        | some msg => simp [selectLoop, hv, hres]
  | cons g rest ih =>
    obtain ⟨hgv, hgr⟩ := hpre g (by simp)
    have ih2 := ih fun x hx => hpre x (by simp [hx])
    have hcons : selectLoop resize ((g :: rest) ++ f :: post) =
        ⟨g :: (selectLoop resize (rest ++ f :: post)).newImages,
          (selectLoop resize (rest ++ f :: post)).error,
          g :: (selectLoop resize (rest ++ f :: post)).processed⟩ := by
      simp [selectLoop, hgv, hgr]
    rw [hcons]
    refine ⟨by simp [ih2.1], by simpa using ih2.2.1, ?_⟩
    rcases ih2.2.2 with h | h
    · left; simp [h]
    · right; simp [h]

/-- Witness for the amended C4 at a concrete input: with a good file
before a failing file and a good file after it, only the first file is
kept and the suffix is never processed. -/
theorem selectLoop_first_failure_witness :
    ((∀ g ∈ [goodFile], (validateImageFile g).valid = true ∧
        (fun _ : FileMeta => (none : Option String)) g = none) ∧
      ((validateImageFile badFile).valid = false ∨
        (fun _ : FileMeta => (none : Option String)) badFile ≠ none)) ∧
    (selectLoop (fun _ => none) ([goodFile] ++ badFile :: [goodFile])).newImages =
      [goodFile] := by
  refine ⟨⟨by decide, Or.inl (by decide)⟩, ?_⟩
  exact (selectLoop_first_failure (fun _ => none) [goodFile] badFile [goodFile]
    (by decide) (Or.inl (by decide))).1

/-! ## Add-bowl submission (src/app/add `handleSubmit`, step 3)

The image loop of the add-page `handleSubmit`: for each index `i` of the
`images` array it calls `uploadImageSet`; on success it attempts the
metadata insert with `display_order: i`; failures of either step append a
diagnostic to `debugInfo` and the loop continues. The upload and insert
outcomes are abstracted by oracles per index. -/

/-- One accumulated `debugInfo` entry of the add-page `handleSubmit`
(the free-text part of the message is abstracted away). -/
inductive Diagnostic where
  /-- `Image error: ${imageError.message}` after a failed metadata
  insert for image `i`. -/
  | imageError (i : Nat)
  /-- `Image upload failed for image ${i + 1}` after a failed upload. -/
  | uploadFailed (i : Nat)
deriving DecidableEq, Repr

/-- Result of the image loop of the add-page `handleSubmit`: the metadata
insert payloads attempted (image index paired with the `display_order`
value sent), the accumulated diagnostics, and any storage removal calls
issued by the loop itself. -/
structure SubmitOutcome where
  inserts : List (Nat × Nat)
  debug : List Diagnostic
  removes : List (List String)
deriving DecidableEq, Repr

/-- The `for (let i = 0; i < images.length; i++)` loop body: on upload
success insert a row with `display_order: i` (an insert error only
appends a diagnostic); on upload failure append a diagnostic; in all
cases continue with the next image. The loop itself never issues a
storage removal. -/
def addSubmitLoop (uploadOk insertOk : Nat → Bool) : List Nat → SubmitOutcome
  | [] => ⟨[], [], []⟩
  | i :: rest =>
    let o := addSubmitLoop uploadOk insertOk rest
    if uploadOk i then
      if insertOk i then ⟨(i, i) :: o.inserts, o.debug, o.removes⟩
      else ⟨(i, i) :: o.inserts, .imageError i :: o.debug, o.removes⟩
    else ⟨o.inserts, .uploadFailed i :: o.debug, o.removes⟩

/-- The image loop run over the indices `0 .. n-1` of the images array. -/
def addSubmitImages (uploadOk insertOk : Nat → Bool) (n : Nat) : SubmitOutcome :=
  addSubmitLoop uploadOk insertOk (List.range n)

/-- The per-list facts about the submit loop, proved once and reused. -/
theorem addSubmitLoop_facts (uploadOk insertOk : Nat → Bool) (l : List Nat) :
    (∀ p ∈ (addSubmitLoop uploadOk insertOk l).inserts, p.2 = p.1) ∧
    (∀ i ∈ l, uploadOk i = true → (i, i) ∈ (addSubmitLoop uploadOk insertOk l).inserts) ∧
    (∀ i ∈ l, uploadOk i = true → insertOk i = false →
      Diagnostic.imageError i ∈ (addSubmitLoop uploadOk insertOk l).debug) ∧
    (addSubmitLoop uploadOk insertOk l).removes = [] := by
  induction l with
  | nil => simp [addSubmitLoop]
  | cons j rest ih =>
    obtain ⟨ih1, ih2, ih3, ih4⟩ := ih
    by_cases hu : uploadOk j = true
    · by_cases hins : insertOk j = true
      · refine ⟨?_, ?_, ?_, ?_⟩
        · intro p hp
          simp only [addSubmitLoop, hu, hins, if_true, Bool.false_eq_true, if_false] at hp
          rcases List.mem_cons.mp hp with rfl | hp
          · rfl
          · exact ih1 p hp
        · intro i hi hui
          simp only [addSubmitLoop, hu, hins, if_true, Bool.false_eq_true, if_false]
          rcases List.mem_cons.mp hi with rfl | hi
          · exact List.mem_cons_self _ _
          · exact List.mem_cons_of_mem _ (ih2 i hi hui)
        · intro i hi hui hins2
          simp only [addSubmitLoop, hu, hins, if_true, Bool.false_eq_true, if_false]
          rcases List.mem_cons.mp hi with rfl | hi
          · rw [hins] at hins2; exact absurd hins2 (by decide)
          · exact ih3 i hi hui hins2
        · simp only [addSubmitLoop, hu, hins, if_true, Bool.false_eq_true, if_false]
          exact ih4
      · rw [Bool.not_eq_true] at hins
        refine ⟨?_, ?_, ?_, ?_⟩
        · intro p hp
          simp only [addSubmitLoop, hu, hins, if_true, Bool.false_eq_true, if_false] at hp
          rcases List.mem_cons.mp hp with rfl | hp
          · rfl
          · exact ih1 p hp
        · intro i hi hui
          simp only [addSubmitLoop, hu, hins, if_true, Bool.false_eq_true, if_false]
          rcases List.mem_cons.mp hi with rfl | hi
          · exact List.mem_cons_self _ _
          · exact List.mem_cons_of_mem _ (ih2 i hi hui)
        · intro i hi hui hins2
          simp only [addSubmitLoop, hu, hins, if_true, Bool.false_eq_true, if_false]
          rcases List.mem_cons.mp hi with rfl | hi
          · exact List.mem_cons_self _ _
          · exact List.mem_cons_of_mem _ (ih3 i hi hui hins2)
        · simp only [addSubmitLoop, hu, hins, if_true, Bool.false_eq_true, if_false]
          exact ih4
    · rw [Bool.not_eq_true] at hu
      refine ⟨?_, ?_, ?_, ?_⟩
      · intro p hp
        simp only [addSubmitLoop, hu, Bool.false_eq_true, if_false] at hp
        exact ih1 p hp
      · intro i hi hui
        simp only [addSubmitLoop, hu, Bool.false_eq_true, if_false]
        rcases List.mem_cons.mp hi with rfl | hi
        · rw [hu] at hui; exact absurd hui (by decide)
        · exact ih2 i hi hui
      · intro i hi hui hins2
        simp only [addSubmitLoop, hu, Bool.false_eq_true, if_false]
        rcases List.mem_cons.mp hi with rfl | hi
        · rw [hu] at hui; exact absurd hui (by decide)
        · exact List.mem_cons_of_mem _ (ih3 i hi hui hins2)
      · simp only [addSubmitLoop, hu, Bool.false_eq_true, if_false]
        exact ih4

/-- C7: in the add-bowl submission, every metadata insert payload carries
`display_order` equal to that image's index in the selected image list;
in particular the first image receives `display_order` 0 and becomes the
primary image. -/
theorem addSubmit_display_order (uploadOk insertOk : Nat → Bool) (n : Nat) :
    (∀ p ∈ (addSubmitImages uploadOk insertOk n).inserts, p.2 = p.1) ∧
    (∀ i, i < n → uploadOk i = true →
      (i, i) ∈ (addSubmitImages uploadOk insertOk n).inserts) := by
  obtain ⟨h1, h2, _, _⟩ := addSubmitLoop_facts uploadOk insertOk (List.range n)
  exact ⟨h1, fun i hi hui => h2 i (List.mem_range.mpr hi) hui⟩

/-- Witness for C7 at a concrete input: in a two-image submission with
all operations succeeding, image 0 is inserted with `display_order` 0. -/
theorem addSubmit_display_order_witness :
    (0 < 2 ∧ (fun _ : Nat => true) 0 = true) ∧
    (0, 0) ∈ (addSubmitImages (fun _ => true) (fun _ => true) 2).inserts := by
  exact ⟨⟨by norm_num, rfl⟩,
    (addSubmit_display_order (fun _ => true) (fun _ => true) 2).2 0 (by norm_num) rfl⟩

/-- C5: when the metadata insert fails after a successful upload for image
`i`, the failure is accumulated as a diagnostic, but the submit loop
issues no storage removal call: the already-uploaded blobs are not rolled
back by a link failure. -/
theorem addSubmit_link_failure_no_rollback (uploadOk insertOk : Nat → Bool) (n i : Nat)
    (hi : i < n) (hu : uploadOk i = true) (hins : insertOk i = false) :
    Diagnostic.imageError i ∈ (addSubmitImages uploadOk insertOk n).debug ∧
    (addSubmitImages uploadOk insertOk n).removes = [] := by
  obtain ⟨_, _, h3, h4⟩ := addSubmitLoop_facts uploadOk insertOk (List.range n)
  exact ⟨h3 i (List.mem_range.mpr hi) hu hins, h4⟩

/-- Witness for C5 at a concrete input: a single-image submission whose
upload succeeds and whose insert fails records the diagnostic and issues
no removal call. -/
theorem addSubmit_link_failure_no_rollback_witness :
    (0 < 1 ∧ (fun _ : Nat => true) 0 = true ∧ (fun _ : Nat => false) 0 = false) ∧
    Diagnostic.imageError 0 ∈ (addSubmitImages (fun _ => true) (fun _ => false) 1).debug ∧
    (addSubmitImages (fun _ => true) (fun _ => false) 1).removes = [] := by
  exact ⟨⟨by norm_num, rfl, rfl⟩,
    addSubmit_link_failure_no_rollback (fun _ => true) (fun _ => false) 1 0
      (by norm_num) rfl rfl⟩

/-! ## Finishes (`addFinish`, `removeFinish` in the add/edit pages, and
the delete-all-then-reinsert save of src/app/bowl/[id]/edit `handleSubmit`) -/

/-- JavaScript's `String.prototype.trim`, embedded over the character
list: strip whitespace from both ends. -/
def strTrim (s : String) : String :=
  ⟨((s.data.dropWhile Char.isWhitespace).reverse.dropWhile Char.isWhitespace).reverse⟩

/-- `addFinish`: append the trimmed name only when it is non-empty
(JS string truthiness) and not already in the list. -/
def addFinish (finishes : List String) (newFinish : String) : List String :=
  if strTrim newFinish ≠ "" ∧ ¬ finishes.contains (strTrim newFinish) then
    finishes ++ [strTrim newFinish]
  else finishes

/-- `removeFinish`: drop every occurrence of the given name. -/
def removeFinish (finishes : List String) (finish : String) : List String :=
  finishes.filter (fun f => f != finish)

/-- One user action on the finishes list. -/
inductive FinishOp where
  | add (s : String)
  | remove (s : String)

/-- Apply one finishes action to the current list. -/
def applyFinishOp (fs : List String) : FinishOp → List String
  | .add s => addFinish fs s
  | .remove s => removeFinish fs s

/-- The finishes list after a sequence of add/remove actions, starting
from the empty list of a fresh form. -/
def applyFinishOps (ops : List FinishOp) : List String :=
  ops.foldl applyFinishOp []

/-- Step 2 of the edit-page `handleSubmit`: delete all `bowl_finishes`
rows of the bowl, then insert one row per current finish, in list order.
The table is modelled as a list of (bowl id, finish name) rows. -/
def saveFinishes (rows : List (String × String)) (bowlId : String)
    (finishes : List String) : List (String × String) :=
  rows.filter (fun r => r.1 != bowlId) ++ finishes.map (fun f => (bowlId, f))

/-- The finish names stored for one bowl, in row order. -/
def rowsForBowl (rows : List (String × String)) (bowlId : String) : List String :=
  (rows.filter (fun r => r.1 == bowlId)).map Prod.snd

/-- `addFinish` keeps the list free of duplicates, and `removeFinish`
keeps a sublist; so any action sequence from the empty list is
duplicate-free. -/
theorem applyFinishOp_nodup (fs : List String) (op : FinishOp) (h : fs.Nodup) :
    (applyFinishOp fs op).Nodup := by
  cases op with
  | add s =>
    simp only [applyFinishOp]
    unfold addFinish
    split
    · next hc =>
      have hmem : strTrim s ∉ fs := fun hm => hc.2 (List.elem_iff.mpr hm)
      simp [List.nodup_append, h, hmem]
    · exact h
  | remove s =>
    simp only [applyFinishOp, removeFinish]
    exact List.Nodup.filter _ h

/-- C8: adding an already-present (trimmed) name leaves the finishes list
unchanged; an add either leaves the list unchanged or appends the trimmed
name at the end, and a remove keeps a sublist (insertion order is
preserved); every add/remove sequence from the empty list yields a
duplicate-free list; and the edit-page save replaces all of a bowl's
finish rows with exactly the current list, in order. -/
theorem finishes_spec :
    (∀ (fs : List String) (n : String), strTrim n ∈ fs → addFinish fs n = fs) ∧
    (∀ (fs : List String) (n : String),
      addFinish fs n = fs ∨ addFinish fs n = fs ++ [strTrim n]) ∧
    (∀ (fs : List String) (s : String), (removeFinish fs s).Sublist fs) ∧
    (∀ ops : List FinishOp, (applyFinishOps ops).Nodup) ∧
    (∀ (rows : List (String × String)) (b : String) (fs : List String),
      rowsForBowl (saveFinishes rows b fs) b = fs) := by
  refine ⟨?_, ?_, ?_, ?_, ?_⟩
  · intro fs n hmem
    simp [addFinish, hmem]
  · intro fs n
    unfold addFinish
    split
    · right; rfl
    · left; rfl
  · intro fs s
    exact List.filter_sublist fs
  · intro ops
    have aux : ∀ (l : List FinishOp) (fs : List String), fs.Nodup →
        (l.foldl applyFinishOp fs).Nodup := by
      intro l
      induction l with
      | nil => intro fs h; simpa using h
      | cons op rest ih => intro fs h; exact ih _ (applyFinishOp_nodup fs op h)
    exact aux ops [] (by simp)
  · intro rows b fs
    unfold rowsForBowl saveFinishes
    rw [List.filter_append]
    have h1 : (rows.filter (fun r => r.1 != b)).filter (fun r => r.1 == b) = [] := by
      rw [List.filter_filter]
      apply List.filter_eq_nil_iff.mpr
      intro a _
      by_cases h : a.1 == b <;> simp_all
    have h2 : (fs.map (fun f => (b, f))).filter (fun r => r.1 == b) =
        fs.map (fun f => (b, f)) := by
      apply List.filter_eq_self.mpr
      intro a ha
      obtain ⟨f, _, rfl⟩ := List.mem_map.mp ha
      simp
    rw [h1, h2]
    simp

/-- Witness for C8 at a concrete input: adding "Tung oil" twice keeps one
copy, and saving two finishes rewrites exactly those two rows for the
bowl. -/
theorem finishes_spec_witness :
    (strTrim " Tung oil " ∈ ["Tung oil"] ∧
      addFinish ["Tung oil"] " Tung oil " = ["Tung oil"]) ∧
    rowsForBowl
      (saveFinishes [("b1", "Wax"), ("b2", "Lacquer")] "b1" ["Tung oil", "Danish oil"])
      "b1" = ["Tung oil", "Danish oil"] := by
  refine ⟨⟨by decide, ?_⟩, ?_⟩
  · exact finishes_spec.1 ["Tung oil"] " Tung oil " (by decide)
  · exact finishes_spec.2.2.2.2 [("b1", "Wax"), ("b2", "Lacquer")] "b1"
      ["Tung oil", "Danish oil"]

/-! ## Edit-page display-order writes (src/app/bowl/[id]/edit `handleSubmit`)

After image handling, the edit-page `handleSubmit` inserts each new image
with `display_order: i + (images.length - newImages.length)` (`i` its
index in the `newImages = images.filter(img => img.isNew)` array) and
then updates each remaining image record to `display_order: i` (`i` its
index in `nonNewImages = images.filter(img => !img.isNew)`). An image is
modelled as its identifying string paired with its `isNew` flag. -/

/-- The (image, display_order) pairs written on save, in write order:
new-image inserts first, then existing-image updates. -/
def editImageOrderWrites (images : List (String × Bool)) : List (String × Nat) :=
  let newImages := images.filter (fun img => img.2)
  let nonNewImages := images.filter (fun img => !img.2)
  newImages.enum.map (fun p => (p.2.1, p.1 + (images.length - newImages.length))) ++
    nonNewImages.enum.map (fun p => (p.2.1, p.1))

/-- Counterexample for C6: with a new image placed before an existing one
on screen, the existing image is written `display_order` 0 and the new one
1, so the written orders do not match the on-screen order (position 0
should receive 0). -/
theorem editImageOrderWrites_counterexample :
    editImageOrderWrites [("n", true), ("o", false)] = [("n", 1), ("o", 0)] ∧
    ("n", 0) ∉ editImageOrderWrites [("n", true), ("o", false)] := by
  decide

/-- Mapping an index-shifted enumeration: enumerating from `a + c` equals
enumerating from `a` and adding `c` to each position. -/
theorem map_enumFrom_shift (l : List (String × Bool)) :
    ∀ a c : Nat, (l.enumFrom (a + c)).map (fun p => (p.2.1, p.1)) =
      (l.enumFrom a).map (fun p => (p.2.1, p.1 + c)) := by
  induction l with
  | nil => intro a c; simp
  | cons x xs ih =>
    intro a c
    simp only [List.enumFrom, List.map_cons, List.cons.injEq]
    refine ⟨trivial, ?_⟩
    have h := ih (a + 1) c
    rw [show a + 1 + c = a + c + 1 by omega] at h
    exact h

/-- C6 as amended: the display_order values written on an edit save are
always a permutation of `0 .. count-1`; and they match the on-screen
positions exactly in the case where every existing image precedes every
new image in the array (in particular for a pure reorder with no newly
added images). -/
theorem editImageOrderWrites_spec :
    (∀ images : List (String × Bool),
      ((editImageOrderWrites images).map Prod.snd).Perm (List.range images.length)) ∧
    (∀ olds news : List (String × Bool),
      (∀ x ∈ olds, x.2 = false) → (∀ x ∈ news, x.2 = true) →
      (editImageOrderWrites (olds ++ news)).Perm
        ((olds ++ news).enum.map (fun p => (p.2.1, p.1)))) := by
  constructor
  · intro images
    have hlen : images.length = (images.filter (fun img => img.2)).length +
        (images.filter (fun img => !img.2)).length :=
      List.length_eq_length_filter_add _
    have hsub : images.length - (images.filter (fun img => img.2)).length =
        (images.filter (fun img => !img.2)).length := by omega
    have hmap : (editImageOrderWrites images).map Prod.snd =
        (List.range (images.filter (fun img => img.2)).length).map
          (· + (images.filter (fun img => !img.2)).length) ++
        List.range (images.filter (fun img => !img.2)).length := by
      simp only [editImageOrderWrites, hsub, List.map_append]
      congr 1
      · rw [← List.enum_map_fst (images.filter (fun img => img.2)), List.map_map,
          List.map_map]
        rfl
      · rw [← List.enum_map_fst (images.filter (fun img => !img.2)), List.map_map]
        rfl
    rw [hmap, hlen]
    have hcomm : (List.range (images.filter (fun img => img.2)).length).map
        (· + (images.filter (fun img => !img.2)).length) =
        (List.range (images.filter (fun img => img.2)).length).map
        ((images.filter (fun img => !img.2)).length + ·) := by
      apply List.map_congr_left
      intro a _
      omega
    rw [hcomm, Nat.add_comm, List.range_add]
    exact List.perm_append_comm
  · intro olds news holds hnews
    have h1 : olds.filter (fun img => img.2) = [] :=
      List.filter_eq_nil_iff.mpr fun a ha => by simp [holds a ha]
    have h2 : news.filter (fun img => img.2) = news :=
      List.filter_eq_self.mpr fun a ha => by simp [hnews a ha]
    have h3 : olds.filter (fun img => !img.2) = olds :=
      List.filter_eq_self.mpr fun a ha => by simp [holds a ha]
    have h4 : news.filter (fun img => !img.2) = [] :=
      List.filter_eq_nil_iff.mpr fun a ha => by simp [hnews a ha]
    have h5 := map_enumFrom_shift news 0 olds.length
    rw [Nat.zero_add] at h5
    simp only [editImageOrderWrites, List.filter_append, h1, h2, h3, h4,
      List.nil_append, List.append_nil, List.length_append, Nat.add_sub_cancel,
      List.enum_append, List.map_append, h5]
    exact List.perm_append_comm

/-- Witness for the amended C6 at a concrete input: one existing image
followed by one new image receives display orders matching the on-screen
positions (up to write order). -/
theorem editImageOrderWrites_spec_witness :
    ((∀ x ∈ [(("o", false) : String × Bool)], x.2 = false) ∧
      (∀ x ∈ [(("n", true) : String × Bool)], x.2 = true)) ∧
    (editImageOrderWrites ([("o", false)] ++ [("n", true)])).Perm
      (([(("o", false) : String × Bool)] ++ [("n", true)]).enum.map
        (fun p => (p.2.1, p.1))) := by
  refine ⟨⟨by decide, by decide⟩, ?_⟩
  exact editImageOrderWrites_spec.2 [("o", false)] [("n", true)] (by decide) (by decide)

/-! ## Resizer dimension arithmetic (src/lib/image-processing
`calculateDimensions`, `processImage`)

Number arithmetic is idealised over the rationals, with `Math.round`
as `round`. -/

/-- First mutation of `calculateDimensions`:
`if (width > maxWidth) { height = (height * maxWidth) / width; width = maxWidth }`. -/
def scaleToMaxWidth (width height maxWidth : ℚ) : ℚ × ℚ :=
  if width > maxWidth then (maxWidth, height * maxWidth / width) else (width, height)

/-- Second mutation of `calculateDimensions`:
`if (height > maxHeight) { width = (width * maxHeight) / height; height = maxHeight }`. -/
def scaleToMaxHeight (width height maxHeight : ℚ) : ℚ × ℚ :=
  if height > maxHeight then (width * maxHeight / height, maxHeight) else (width, height)

/-- `calculateDimensions`: scale down (in up to two steps) to fit the max
box, then round each resulting dimension to the nearest integer. -/
def calculateDimensions (originalWidth originalHeight maxWidth maxHeight : ℚ) : ℤ × ℤ :=
  let p := scaleToMaxWidth originalWidth originalHeight maxWidth
  let q := scaleToMaxHeight p.1 p.2 maxHeight
  (round q.1, round q.2)

/-- The four max boxes used by `processImage` for the thumbnail, medium,
full and original variants (all square). -/
def variantBoxes : List ℕ := [150, 400, 800, 1200]

/-- For a square `m`-by-`m` box, `calculateDimensions` scales both input
dimensions by the single factor `min 1 (min (m/W) (m/H))` and rounds. -/
theorem calculateDimensions_scale (W H m : ℚ) (hW : 0 < W) (hH : 0 < H) (hm : 0 < m) :
    calculateDimensions W H m m =
      (round (min 1 (min (m / W) (m / H)) * W),
        round (min 1 (min (m / W) (m / H)) * H)) := by
  by_cases hw : W > m
  · by_cases hh : H * m / W > m
    · have hWH : W < H := by
        rw [gt_iff_lt, lt_div_iff₀ hW] at hh
        nlinarith
      have h1 : m / H ≤ m / W :=
        (div_le_div_iff_of_pos_left hm hH hW).mpr (le_of_lt hWH)
      have h2 : m / H < 1 := (div_lt_one hH).mpr (lt_trans hw hWH)
      have hmin : min 1 (min (m / W) (m / H)) = m / H := by
        rw [min_eq_right h1, min_eq_right h2.le]
      have e1 : m * m / (H * m / W) = m / H * W := by
        field_simp
        ring
      have e2 : m = m / H * H := by field_simp
      simp only [calculateDimensions, scaleToMaxWidth, scaleToMaxHeight, if_pos hw,
        if_pos hh, hmin]
      rw [← e1, ← e2]
    · have hHW : H ≤ W := by
        rw [gt_iff_lt, not_lt, div_le_iff₀ hW] at hh
        nlinarith
      have h1 : m / W ≤ m / H :=
        (div_le_div_iff_of_pos_left hm hW hH).mpr hHW
      have h2 : m / W < 1 := (div_lt_one hW).mpr hw
      have hmin : min 1 (min (m / W) (m / H)) = m / W := by
        rw [min_eq_left h1, min_eq_right h2.le]
      have e1 : m = m / W * W := by field_simp
      have e2 : H * m / W = m / W * H := by
        field_simp
        ring
      simp only [calculateDimensions, scaleToMaxWidth, scaleToMaxHeight, if_pos hw,
        if_neg hh, hmin]
      rw [← e1, ← e2]
  · by_cases hh : H > m
    · have hWH : W < H := lt_of_le_of_lt (not_lt.mp hw) hh
      have h1 : m / H ≤ m / W :=
        (div_le_div_iff_of_pos_left hm hH hW).mpr (le_of_lt hWH)
      have h2 : m / H < 1 := (div_lt_one hH).mpr hh
      have hmin : min 1 (min (m / W) (m / H)) = m / H := by
        rw [min_eq_right h1, min_eq_right h2.le]
      have e1 : W * m / H = m / H * W := by
        field_simp
        ring
      have e2 : m = m / H * H := by field_simp
      simp only [calculateDimensions, scaleToMaxWidth, scaleToMaxHeight, if_neg hw,
        if_pos hh, hmin]
      rw [← e1, ← e2]
    · have h1 : (1 : ℚ) ≤ m / W := (one_le_div hW).mpr (not_lt.mp hw)
      have h2 : (1 : ℚ) ≤ m / H := (one_le_div hH).mpr (not_lt.mp hh)
      have hmin : min 1 (min (m / W) (m / H)) = 1 :=
        min_eq_left (le_min h1 h2)
      simp only [calculateDimensions, scaleToMaxWidth, scaleToMaxHeight, if_neg hw,
        if_neg hh, hmin, one_mul]

/-- C2: for every positive input `W`-by-`H` and each of the four variant
boxes `m`, the output of `calculateDimensions` is the rounding of both
input dimensions scaled by one common factor in `(0, 1]` (aspect ratio
preserved up to rounding), and each rounded output dimension is at most
`m` (larger axis within the box) and at most the corresponding input
dimension (no upscaling). -/
theorem calculateDimensions_spec (W H : ℕ) (hW : 0 < W) (hH : 0 < H)
    (m : ℕ) (hmem : m ∈ variantBoxes) :
    ∃ s : ℚ, 0 < s ∧ s ≤ 1 ∧
      calculateDimensions (W : ℚ) (H : ℚ) (m : ℚ) (m : ℚ) =
        (round (s * (W : ℚ)), round (s * (H : ℚ))) ∧
      round (s * (W : ℚ)) ≤ (m : ℤ) ∧ round (s * (H : ℚ)) ≤ (m : ℤ) ∧
      round (s * (W : ℚ)) ≤ (W : ℤ) ∧ round (s * (H : ℚ)) ≤ (H : ℤ) := by
  have hm : 0 < m := by fin_cases hmem <;> norm_num
  have hWq : (0 : ℚ) < W := by exact_mod_cast hW
  have hHq : (0 : ℚ) < H := by exact_mod_cast hH
  have hmq : (0 : ℚ) < m := by exact_mod_cast hm
  refine ⟨min 1 (min ((m : ℚ) / W) ((m : ℚ) / H)), ?_, min_le_left _ _, ?_, ?_, ?_, ?_, ?_⟩
  · exact lt_min one_pos (lt_min (div_pos hmq hWq) (div_pos hmq hHq))
  · rw [calculateDimensions_scale _ _ _ hWq hHq hmq]
  · have hs : min 1 (min ((m : ℚ) / W) ((m : ℚ) / H)) * W ≤ (m : ℚ) := by
      rw [← le_div_iff₀ hWq]
      exact le_trans (min_le_right _ _) (min_le_left _ _)
    have h := Int.floor_le_floor (α := ℚ)
      (show min 1 (min ((m : ℚ) / W) ((m : ℚ) / H)) * W + 1 / 2 ≤ (m : ℚ) + 1 / 2 by linarith)
    rw [← round_eq, ← round_eq, round_natCast] at h
    exact h
  · have hs : min 1 (min ((m : ℚ) / W) ((m : ℚ) / H)) * H ≤ (m : ℚ) := by
      rw [← le_div_iff₀ hHq]
      exact le_trans (min_le_right _ _) (min_le_right _ _)
    have h := Int.floor_le_floor (α := ℚ)
      (show min 1 (min ((m : ℚ) / W) ((m : ℚ) / H)) * H + 1 / 2 ≤ (m : ℚ) + 1 / 2 by linarith)
    rw [← round_eq, ← round_eq, round_natCast] at h
    exact h
  · have hs : min 1 (min ((m : ℚ) / W) ((m : ℚ) / H)) * W ≤ (W : ℚ) := by
      have := min_le_left (1 : ℚ) (min ((m : ℚ) / W) ((m : ℚ) / H))
      nlinarith
    have h := Int.floor_le_floor (α := ℚ)
      (show min 1 (min ((m : ℚ) / W) ((m : ℚ) / H)) * W + 1 / 2 ≤ (W : ℚ) + 1 / 2 by linarith)
    rw [← round_eq, ← round_eq, round_natCast] at h
    exact h
  · have hs : min 1 (min ((m : ℚ) / W) ((m : ℚ) / H)) * H ≤ (H : ℚ) := by
      have := min_le_left (1 : ℚ) (min ((m : ℚ) / W) ((m : ℚ) / H))
      nlinarith
    have h := Int.floor_le_floor (α := ℚ)
      (show min 1 (min ((m : ℚ) / W) ((m : ℚ) / H)) * H + 1 / 2 ≤ (H : ℚ) + 1 / 2 by linarith)
    rw [← round_eq, ← round_eq, round_natCast] at h
    exact h

/-- Witness for C2 at a concrete input: a 2000-by-3000 source and the
thumbnail box. -/
theorem calculateDimensions_spec_witness :
    (0 < 2000 ∧ 0 < 3000 ∧ 150 ∈ variantBoxes) ∧
    ∃ s : ℚ, 0 < s ∧ s ≤ 1 ∧
      calculateDimensions (2000 : ℚ) (3000 : ℚ) (150 : ℚ) (150 : ℚ) =
        (round (s * (2000 : ℚ)), round (s * (3000 : ℚ))) ∧
      round (s * (2000 : ℚ)) ≤ (150 : ℤ) ∧ round (s * (3000 : ℚ)) ≤ (150 : ℤ) ∧
      round (s * (2000 : ℚ)) ≤ (2000 : ℤ) ∧ round (s * (3000 : ℚ)) ≤ (3000 : ℤ) := by
  refine ⟨⟨by norm_num, by norm_num, by decide⟩, ?_⟩
  have h := calculateDimensions_spec 2000 3000 (by norm_num) (by norm_num) 150 (by decide)
  exact_mod_cast h

end WoodBowl
